import Mathlib

/-!
Verification development for the query-compilation and indexing-execution
core of the fuel-indexer repository.

The definitions below are shallow embeddings of the Rust sources:
  * `packages/fuel-indexer-graphql/src/graphql.rs` (query compiler),
  * `packages/fuel-indexer-schema/src/db/tables.rs` (schema compiler),
  * `packages/fuel-indexer/src/executor.rs` (executors and the ingestion
    scheduler loop),
  * `packages/fuel-indexer-lib/src/defaults.rs` (constants).

Rust `HashMap`s are modelled as association lists with insert-or-replace
semantics; all properties about them are stated through lookups, so the
(unspecified) iteration order of a `HashMap` is never relied upon.
Rust panics (`unwrap` / `expect` on values the program assumes present) are
modelled as `Option`/distinguished error results and are noted at each site.
-/

namespace Indexer

/-! ## Association-list maps (model of Rust `HashMap`) -/

/-- First-match lookup in an association list. -/
def lookupMap {α : Type} : List (String × α) → String → Option α
  | [], _ => none
  | (k, v) :: rest, key => if k = key then some v else lookupMap rest key

/-- Insert-or-replace, the semantics of `HashMap::insert`: an existing
binding is replaced in place, a new key is appended. -/
def insertMap {α : Type} : List (String × α) → String → α → List (String × α)
  | [], key, v => [(key, v)]
  | (k, v0) :: rest, key, v =>
    if k = key then (k, v) :: rest else (k, v0) :: insertMap rest key v

theorem lookupMap_insertMap_self {α : Type} (m : List (String × α)) (k : String) (v : α) :
    lookupMap (insertMap m k v) k = some v := by
  induction m with
  | nil => simp [insertMap, lookupMap]
  | cons hd tl ih =>
    obtain ⟨k0, v0⟩ := hd
    by_cases h : k0 = k
    · simp [insertMap, lookupMap, h]
    · simp [insertMap, lookupMap, h, ih]

theorem lookupMap_insertMap_ne {α : Type} (m : List (String × α)) (k k2 : String) (v : α)
    (h : k ≠ k2) : lookupMap (insertMap m k v) k2 = lookupMap m k2 := by
  induction m with
  | nil => simp [insertMap, lookupMap, h]
  | cons hd tl ih =>
    obtain ⟨k0, v0⟩ := hd
    by_cases h0 : k0 = k
    · subst h0
      simp [insertMap, lookupMap, h]
    · simp [insertMap, lookupMap, h0, ih]

theorem lookupMap_append_of_some {α : Type} (m m2 : List (String × α)) (k : String) (v : α)
    (h : lookupMap m k = some v) : lookupMap (m ++ m2) k = some v := by
  induction m with
  | nil => simp [lookupMap] at h
  | cons hd tl ih =>
    obtain ⟨k0, v0⟩ := hd
    by_cases h0 : k0 = k
    · simp [lookupMap, h0] at h ⊢
      exact h
    · simp [lookupMap, h0] at h ⊢
      exact ih h

/-- Model of Rust `str::to_lowercase` on the ASCII identifiers (type and
field names) this code applies it to. -/
def lowerString (s : String) : String := ⟨s.data.map Char.toLower⟩

/-! ## Query compiler data model (`fuel-indexer-graphql/src/graphql.rs`)

`QueryElement`, `JoinCondition`, `QueryJoinNode` and `UserQuery` are the
types from `queries.rs` used by `Operation::parse`.  Query parameters
(`ParamType` / `QueryParams`) are defined in `arguments.rs`, which is not
part of the sources; `Operation::parse` only ever moves filter lists around
unchanged via `QueryParams::add_params(filters, table)`, so a filter is
modelled as an abstract token and `QueryParams` as the list of
`(filters, table)` pairs in the order they were added. -/

inductive QueryElement where
  | field (key : String) (value : String)
  | objectOpeningBoundary (key : String)
  | objectClosingBoundary
  deriving DecidableEq, Repr

structure JoinCondition where
  referencing_key_table : String
  referencing_key_col : String
  primary_key_table : String
  primary_key_col : String
  deriving DecidableEq, Repr

structure QueryJoinNode where
  dependencies : List (String × JoinCondition)
  dependents : List (String × JoinCondition)
  deriving DecidableEq, Repr

/-- `QueryParams`: the ordered list of `add_params(filters, table)` calls. -/
abbrev QueryParams := List (List String × String)

/-! The selection tree of `graphql.rs`: `Selection::Field` carries the field
name, its argument/filter list, the nested `Selections` and an optional
alias; `Selection::Fragment` is an unresolved spread.  `Selections` also
carries the `_field_type` and `has_fragments` fields of the Rust struct. -/

mutual
inductive Selection where
  | sfield (name : String) (filters : List String) (subs : Selections)
      (al : Option String) : Selection
  | sfrag (name : String) : Selection
inductive Selections where
  | mk (fieldType : String) (hasFragments : Bool) (sels : List Selection) : Selections
end

def Selections.sels : Selections → List Selection
  | .mk _ _ s => s

def Selections.hasFragments : Selections → Bool
  | .mk _ hf _ => hf

def Selections.fieldType : Selections → String
  | .mk ft _ _ => ft

/-- Reflection `Schema` (`fuel-indexer-schema/src/db/tables.rs`). -/
structure Schema where
  version : String
  namespc : String
  identifier : String
  query : String
  types : List String
  fields : List (String × List (String × String))
  foreign_keys : List (String × List (String × (String × String)))
  deriving Repr

/-- `Schema::check_type`. -/
def Schema.check_type (s : Schema) (typeName : String) : Bool :=
  s.types.contains typeName

/-- Modelled from the spec: `normalize_field_type_name` (from the
`fuel-indexer-schema` utils module, not among the sources) strips the
non-null wrapper from a stringified field type, e.g. `Tx!` becomes `Tx`. -/
def normalizeFieldTypeName (s : String) : String :=
  ⟨(s.data.reverse.dropWhile (fun c => c = '!')).reverse⟩

/-- `Schema::field_type`: look the field up under the type name, then under
the normalized type name. -/
def Schema.fieldType (s : Schema) (cond name : String) : Option String :=
  match lookupMap s.fields cond with
  | some fieldset => lookupMap fieldset name
  | none =>
    match lookupMap s.fields (normalizeFieldTypeName cond) with
    | some fieldset => lookupMap fieldset name
    | none => none

structure UserQuery where
  elements : List QueryElement
  joins : List (String × QueryJoinNode)
  namespace_identifier : String
  entity_name : String
  query_params : QueryParams
  aliasName : Option String
  deriving DecidableEq, Repr

/-- `Operation` (the `_name` field is unused by `parse`). -/
structure Operation where
  namespc : String
  identifier : String
  opName : String
  selections : Selections

/-! Sizes used as the termination measure of the `Operation::parse` work
queue: one unit per selection node. -/

mutual
def selSize : Selection → Nat
  | .sfield _ _ subs _ => 1 + selsSize subs
  | .sfrag _ => 1
def selsSize : Selections → Nat
  | .mk _ _ sels => selListSize sels
def selListSize : List Selection → Nat
  | [] => 0
  | s :: rest => selSize s + selListSize rest
end

theorem selListSize_append (a b : List Selection) :
    selListSize (a ++ b) = selListSize a + selListSize b := by
  induction a with
  | nil => simp [selListSize]
  | cons hd tl ih => simp [selListSize, ih]; omega

theorem selListSize_reverse (a : List Selection) :
    selListSize a.reverse = selListSize a := by
  induction a with
  | nil => rfl
  | cons hd tl ih =>
    simp [List.reverse_cons, selListSize_append, selListSize, ih]
    omega

/-- One side of the join-graph update of `Operation::parse`: insert the
condition into `dependencies` of the referencing table's node, creating the
node when absent. -/
def insertJoinDependency (joins : List (String × QueryJoinNode)) (jc : JoinCondition) :
    List (String × QueryJoinNode) :=
  match lookupMap joins jc.referencing_key_table with
  | some node =>
    insertMap joins jc.referencing_key_table
      { node with dependencies := insertMap node.dependencies jc.primary_key_table jc }
  | none =>
    joins ++ [(jc.referencing_key_table,
      { dependencies := [(jc.primary_key_table, jc)], dependents := [] })]

/-- The other side: insert the condition into `dependents` of the
primary-key table's node, creating the node when absent. -/
def insertJoinDependent (joins : List (String × QueryJoinNode)) (jc : JoinCondition) :
    List (String × QueryJoinNode) :=
  match lookupMap joins jc.primary_key_table with
  | some node =>
    insertMap joins jc.primary_key_table
      { node with dependents := insertMap node.dependents jc.referencing_key_table jc }
  | none =>
    joins ++ [(jc.primary_key_table,
      { dependencies := [], dependents := [(jc.referencing_key_table, jc)] })]

/-- The closing-boundary check at the top of each `Operation::parse` loop
iteration: if a nesting level is open, the entity stack shrank since the
previous pop and the innermost open entity differs from the popped parent
entity, pop the nesting stack and emit an `ObjectClosingBoundary`. -/
def closeBoundary (ename : String) (erestLen lastSeen : Nat)
    (nested : List String) (elements : List QueryElement) :
    List String × List QueryElement :=
  match nested with
  | top :: nrest =>
    if erestLen < lastSeen ∧ top ≠ ename
    then (nrest, elements ++ [QueryElement.objectClosingBoundary])
    else (top :: nrest, elements)
  | [] => ([], elements)

/-- The foreign-key handling of a composite selection in `Operation::parse`:
when the parent entity's foreign-key dictionary has an entry for the field,
build the `JoinCondition`, record it on both sides of the join graph,
switch the child entity to the referenced table when it differs from the
field name and scope the filters to the referenced table.  Returns
`(new_entity, joins, query_params)`. -/
def fkJoinStep (nsid : String) (fks : List (String × List (String × (String × String))))
    (ename fname : String) (filters : List String)
    (joins : List (String × QueryJoinNode)) (qp : QueryParams) :
    String × List (String × QueryJoinNode) × QueryParams :=
  match lookupMap fks (lowerString ename) with
  | some fieldToFk =>
    match lookupMap fieldToFk (lowerString fname) with
    | some (fkTable, fkCol) =>
      let jc : JoinCondition :=
        { referencing_key_table := nsid ++ "." ++ ename
          referencing_key_col := fname
          primary_key_table := nsid ++ "." ++ fkTable
          primary_key_col := fkCol }
      let joins1 := insertJoinDependency joins jc
      let newEntity := if fkTable ≠ fname then fkTable else fname
      let joins2 := insertJoinDependent joins1 jc
      let qp1 := if filters ≠ [] then qp ++ [(filters, nsid ++ "." ++ fkTable)] else qp
      (newEntity, joins2, qp1)
    | none => (fname, joins, qp)
  | none => (fname, joins, qp)

/-- The while loop of `Operation::parse`.

The Rust work vectors `queue` and `entities` are popped from their back and
appended at their back, so they are represented here reversed: the Lean list
head is the Rust vector back.  `nested` is `nested_entity_stack` (head =
stack top) and `lastSeen` is `last_seen_entities_len`.

Each iteration strictly shrinks `selListSize queue` (a popped selection of
size `1 + k` enqueues subselections of total size `k`), so the loop always
terminates; to keep the function computable by kernel reduction it recurses
structurally on a `fuel` bound which the caller sets to
`selListSize queue + 1`, an upper bound on the number of iterations.  The
`fuel = 0` equation is therefore unreachable from `Operation.parse` (see
`parseLoop_fuel_spare`).  The `entities = []` equation is the Rust
`entities.pop().unwrap()` panic, also unreachable: `entities` always has
the same length as `queue`. -/
def parseLoop (nsid : String) (fks : List (String × List (String × (String × String)))) :
    Nat → List Selection → List String → List String →
    Nat → List QueryElement → List (String × QueryJoinNode) → QueryParams →
    List QueryElement × List (String × QueryJoinNode) × QueryParams
  | 0, _, _, _, _, elements, joins, qp => (elements, joins, qp)
  | _ + 1, [], _, nested, _, elements, joins, qp =>
    (elements ++ List.replicate nested.length QueryElement.objectClosingBoundary, joins, qp)
  | _ + 1, _ :: _, [], _, _, elements, joins, qp => (elements, joins, qp)
  | fuel + 1, current :: qrest, ename :: erest, nested, lastSeen, elements, joins, qp =>
    let closed := closeBoundary ename erest.length lastSeen nested elements
    let nested1 := closed.1
    let elements1 := closed.2
    let lastSeen1 := erest.length
    match current with
    | .sfrag _ => parseLoop nsid fks fuel qrest erest nested1 lastSeen1 elements1 joins qp
    | .sfield fname filters (Selections.mk _sft _shf ssels) al =>
      match ssels with
      | [] =>
        let elements2 := elements1 ++
          [QueryElement.field (al.getD fname) (nsid ++ "." ++ ename ++ "." ++ fname)]
        let qp2 := if filters ≠ [] then qp ++ [(filters, nsid ++ "." ++ ename)] else qp
        parseLoop nsid fks fuel qrest erest nested1 lastSeen1 elements2 joins qp2
      | s0 :: srest =>
        let ssels2 := s0 :: srest
        let fkres := fkJoinStep nsid fks ename fname filters joins qp
        let entities2 := List.replicate ssels2.length fkres.1 ++ erest
        let nested2 := fkres.1 :: nested1
        let elements2 := elements1 ++ [QueryElement.objectOpeningBoundary (al.getD fname)]
        parseLoop nsid fks fuel (ssels2.reverse ++ qrest) entities2 nested2 lastSeen1
          elements2 fkres.2.1 fkres.2.2

/-- `Operation::parse`: one `UserQuery` per top-level `Field` selection
(top-level fragments produce nothing). -/
def Operation.parse (op : Operation) (schema : Schema) : List UserQuery :=
  op.selections.sels.filterMap fun selection =>
    match selection with
    | .sfrag _ => none
    | .sfield entityName filters subs al =>
      let nsid := op.namespc ++ "_" ++ op.identifier
      let qp0 : QueryParams :=
        if filters ≠ [] then [(filters, nsid ++ "." ++ entityName)] else []
      let res := parseLoop nsid schema.foreign_keys (selListSize subs.sels + 1) subs.sels
        (List.replicate subs.sels.length entityName) [] subs.sels.length [] [] qp0
      some
        { elements := res.1
          joins := res.2.1
          namespace_identifier := nsid
          entity_name := entityName
          query_params := res.2.2
          aliasName := al }

/-! ## The C1 fixture: the query `{ tx { block { id height } id timestamp } }`
over a schema whose foreign-key dictionary maps `tx.block` to `(block, id)`
(the situation of `test_operation_parse_into_user_query` in `graphql.rs`). -/

def selectionsOnBlock : Selections := .mk "Block" false [
  .sfield "id" [] (.mk "ID!" false []) none,
  .sfield "height" [] (.mk "UInt8!" false []) none]

def selectionsOnTx : Selections := .mk "Tx" false [
  .sfield "block" [] selectionsOnBlock none,
  .sfield "id" [] (.mk "ID!" false []) none,
  .sfield "timestamp" [] (.mk "Int8!" false []) none]

def opC1 : Operation :=
  { namespc := "fuel_indexer_test"
    identifier := "test_index"
    opName := ""
    selections := .mk "QueryRoot" false [.sfield "tx" [] selectionsOnTx none] }

def schemaC1 : Schema :=
  { version := "test_version"
    namespc := "fuel_indexer_test"
    identifier := "test_index"
    query := "QueryRoot"
    types := ["Tx", "Block", "QueryRoot"]
    fields := [("QueryRoot", [("tx", "Tx"), ("block", "Block")]),
               ("Tx", [("timestamp", "Int8!"), ("input_data", "Json!"), ("id", "ID!"),
                       ("object", "__"), ("block", "Block")]),
               ("Block", [("id", "ID!"), ("height", "UInt8!"), ("object", "__"),
                          ("timestamp", "Int8!")])]
    foreign_keys := [("tx", [("block", ("block", "id"))])] }

/-- The join condition produced for `tx.block → (block, id)`. -/
def c1JoinCond : JoinCondition :=
  { referencing_key_table := "fuel_indexer_test_test_index.tx"
    referencing_key_col := "block"
    primary_key_table := "fuel_indexer_test_test_index.block"
    primary_key_col := "id" }

/-- C1: compiling `{ tx { block { id height } id timestamp } }` with
`Operation::parse` over a schema whose foreign-key dictionary maps
`tx.block` to `(block, id)` yields a single `UserQuery` whose element
sequence is exactly `[ObjectOpeningBoundary(block), Field(height,
ns.block.height), Field(id, ns.block.id), ObjectClosingBoundary, Field(id,
ns.tx.id), Field(timestamp, ns.tx.timestamp)]` and whose join graph records
`ns.tx` as depending on `ns.block` (and `ns.block` as having dependent
`ns.tx`) with referencing column `block` and primary-key column `id`. -/
theorem c1_tx_block_query_compiles_as_specified :
    (Operation.parse opC1 schemaC1).map UserQuery.elements =
      [[QueryElement.objectOpeningBoundary "block",
        QueryElement.field "height" "fuel_indexer_test_test_index.block.height",
        QueryElement.field "id" "fuel_indexer_test_test_index.block.id",
        QueryElement.objectClosingBoundary,
        QueryElement.field "id" "fuel_indexer_test_test_index.tx.id",
        QueryElement.field "timestamp" "fuel_indexer_test_test_index.tx.timestamp"]] ∧
    (Operation.parse opC1 schemaC1).map
        (fun q => lookupMap q.joins "fuel_indexer_test_test_index.tx") =
      [some { dependencies := [("fuel_indexer_test_test_index.block", c1JoinCond)]
              dependents := [] }] ∧
    (Operation.parse opC1 schemaC1).map
        (fun q => lookupMap q.joins "fuel_indexer_test_test_index.block") =
      [some { dependencies := []
              dependents := [("fuel_indexer_test_test_index.tx", c1JoinCond)] }] := by
  refine ⟨by decide, by decide, by decide⟩

/-! ## Boundary balance (C3) -/

/-- Number of `ObjectOpeningBoundary` elements. -/
def opensCount : List QueryElement → Nat
  | [] => 0
  | QueryElement.objectOpeningBoundary _ :: rest => 1 + opensCount rest
  | _ :: rest => opensCount rest

/-- Number of `ObjectClosingBoundary` elements. -/
def closesCount : List QueryElement → Nat
  | [] => 0
  | QueryElement.objectClosingBoundary :: rest => 1 + closesCount rest
  | _ :: rest => closesCount rest

/-- Nesting depth after consuming an element sequence from depth `d`;
`none` when some prefix closes more objects than it opened. -/
def depthAfter : List QueryElement → Nat → Option Nat
  | [], d => some d
  | QueryElement.objectOpeningBoundary _ :: rest, d => depthAfter rest (d + 1)
  | QueryElement.objectClosingBoundary :: rest, d =>
    match d with
    | 0 => none
    | e + 1 => depthAfter rest e
  | QueryElement.field _ _ :: rest, d => depthAfter rest d

theorem depthAfter_append (a b : List QueryElement) (d : Nat) :
    depthAfter (a ++ b) d = (depthAfter a d).bind (fun e => depthAfter b e) := by
  induction a generalizing d with
  | nil => simp [depthAfter]
  | cons hd tl ih =>
    match hd with
    | QueryElement.objectOpeningBoundary _ => simp [depthAfter, ih]
    | QueryElement.field _ _ => simp [depthAfter, ih]
    | QueryElement.objectClosingBoundary =>
      match d with
      | 0 => simp [depthAfter]
      | e + 1 => simp [depthAfter, ih]

theorem depthAfter_replicate_close (k d : Nat) :
    depthAfter (List.replicate k QueryElement.objectClosingBoundary) (d + k) = some d := by
  induction k with
  | zero => simp [depthAfter]
  | succ k ih =>
    have : d + (k + 1) = (d + k) + 1 := by omega
    simp [List.replicate_succ, depthAfter, this, ih]

theorem depthAfter_counts (es : List QueryElement) :
    ∀ d e, depthAfter es d = some e → d + opensCount es = e + closesCount es := by
  induction es with
  | nil => intro d e h; simp [depthAfter] at h; simp [opensCount, closesCount, h]
  | cons hd tl ih =>
    intro d e h
    match hd with
    | QueryElement.objectOpeningBoundary _ =>
      simp only [depthAfter] at h
      have := ih (d + 1) e h
      simp [opensCount, closesCount]
      omega
    | QueryElement.field _ _ =>
      simp only [depthAfter] at h
      have := ih d e h
      simp [opensCount, closesCount]
      omega
    | QueryElement.objectClosingBoundary =>
      match d with
      | 0 => simp [depthAfter] at h
      | f + 1 =>
        simp only [depthAfter] at h
        have := ih f e h
        simp [opensCount, closesCount]
        omega

theorem depthAfter_take (es : List QueryElement) (d e : Nat)
    (h : depthAfter es d = some e) (n : Nat) :
    ∃ f, depthAfter (es.take n) d = some f := by
  have hsplit : es = es.take n ++ es.drop n := (List.take_append_drop n es).symm
  rw [hsplit, depthAfter_append] at h
  cases htake : depthAfter (es.take n) d with
  | none => rw [htake] at h; simp at h
  | some f => exact ⟨f, rfl⟩

theorem closeBoundary_depth (ename : String) (erestLen lastSeen : Nat)
    (nested : List String) (elements : List QueryElement)
    (h : depthAfter elements 0 = some nested.length) :
    depthAfter (closeBoundary ename erestLen lastSeen nested elements).2 0 =
      some (closeBoundary ename erestLen lastSeen nested elements).1.length := by
  match nested with
  | [] => simpa [closeBoundary] using h
  | top :: nrest =>
    by_cases hc : erestLen < lastSeen ∧ top ≠ ename
    · simp only [closeBoundary, if_pos hc]
      rw [depthAfter_append, h]
      simp [depthAfter, List.length_cons]
    · simpa [closeBoundary, if_neg hc] using h

/-- Invariant of the `Operation::parse` loop: if the element sequence built
so far closes exactly as many objects as it opened minus the currently open
nesting levels (and no prefix over-closes), then the final element sequence
is balanced.  The fuel and length hypotheses mark the two unreachable
equations of `parseLoop`. -/
theorem parseLoop_depth (nsid : String)
    (fks : List (String × List (String × (String × String)))) :
    ∀ (fuel : Nat) (queue : List Selection) (entities nested : List String)
      (lastSeen : Nat) (elements : List QueryElement)
      (joins : List (String × QueryJoinNode)) (qp : QueryParams),
      selListSize queue < fuel →
      entities.length = queue.length →
      depthAfter elements 0 = some nested.length →
      depthAfter
        (parseLoop nsid fks fuel queue entities nested lastSeen elements joins qp).1 0 =
        some 0 := by
  intro fuel
  induction fuel with
  | zero =>
    intro queue _ _ _ _ _ _ hlt _ _
    omega
  | succ fuel ih =>
    intro queue entities nested lastSeen elements joins qp hlt hlen hdep
    match queue, entities with
    | [], _ =>
      simp only [parseLoop]
      rw [depthAfter_append, hdep]
      simpa using depthAfter_replicate_close nested.length 0
    | current :: qrest, [] =>
      simp [List.length] at hlen
    | current :: qrest, ename :: erest =>
      have hclose := closeBoundary_depth ename erest.length lastSeen nested elements hdep
      have hlen2 : erest.length = qrest.length := by
        simpa [List.length_cons] using hlen
      match current with
      | .sfrag fragName =>
        simp only [parseLoop]
        apply ih qrest erest _ erest.length _ joins qp
        · have : 1 ≤ selSize (Selection.sfrag fragName) := by simp [selSize]
          have := hlt
          simp [selListSize, selSize] at this
          omega
        · exact hlen2
        · exact hclose
      | .sfield fname filters (Selections.mk sft shf ssels) al =>
        match ssels with
        | [] =>
          simp only [parseLoop]
          apply ih qrest erest _ erest.length _ joins
          · have := hlt
            simp [selListSize, selSize, selsSize] at this
            omega
          · exact hlen2
          · rw [depthAfter_append, hclose]
            simp [depthAfter]
        | s0 :: srest =>
          simp only [parseLoop]
          apply ih
          · rw [selListSize_append, selListSize_reverse]
            have e2 := hlt
            simp only [selListSize, selSize, selsSize] at e2 ⊢
            omega
          · simp [List.length_append, List.length_replicate, hlen2]
            omega
          · rw [depthAfter_append, hclose]
            simp [depthAfter, List.length_cons]

/-- C3: every `UserQuery` produced by `Operation::parse` has as many
`ObjectOpeningBoundary` elements as `ObjectClosingBoundary` elements, and in
every prefix of the element sequence the closings never outnumber the
openings. -/
theorem c3_boundary_balance (op : Operation) (schema : Schema) (uq : UserQuery)
    (h : uq ∈ Operation.parse op schema) :
    opensCount uq.elements = closesCount uq.elements ∧
    ∀ n, closesCount (uq.elements.take n) ≤ opensCount (uq.elements.take n) := by
  rw [Operation.parse, List.mem_filterMap] at h
  obtain ⟨sel, _hmem, hsome⟩ := h
  match sel with
  | .sfrag _ => simp at hsome
  | .sfield entityName filters subs al =>
    simp only [Option.some_inj] at hsome
    have hdepth :
        depthAfter uq.elements 0 = some 0 := by
      rw [← hsome]
      apply parseLoop_depth
      · omega
      · simp [List.length_replicate]
      · simp [depthAfter]
    constructor
    · have := depthAfter_counts uq.elements 0 0 hdepth
      omega
    · intro n
      obtain ⟨f, hf⟩ := depthAfter_take uq.elements 0 0 hdepth n
      have := depthAfter_counts (uq.elements.take n) 0 f hf
      omega

instance : Inhabited UserQuery := ⟨⟨[], [], "", "", [], none⟩⟩

/-! ## Fragment resolution (`GraphqlQueryBuilder::process_fragments`, C8) -/

/-- The `GraphqlError` cases exercised by fragment processing.
`invalidFragmentSelection` carries the fragment's type condition instead of
the whole `Fragment` value (only the error payload differs from the Rust
enum).  `panicFieldTypeMissing` models the Rust
`.expect("Unable to retrieve field type")` panic inside
`Selections::resolve_fragments`. -/
inductive GErr where
  | unrecognizedType (name : String)
  | invalidFragmentSelection (fragCond : String) (cond : String)
  | fragmentResolverFailed
  | panicFieldTypeMissing (cond : String) (name : String)
  deriving DecidableEq, Repr

structure Fragment where
  cond : String
  selections : Selections

/-! `Selections::resolve_fragments` / its traversal of the selection list.
Returns the rewritten selections, the new `has_fragments` flag (true iff an
unresolved spread remains at this level) and the number of spreads replaced
at this level (counts from nested levels are discarded, as in the Rust
`let _ = sub_selection.resolve_fragments(..)?`). -/

mutual
def resolveSels (schema : Schema) (cond : String) (frags : List (String × Fragment)) :
    Selections → Except GErr (Selections × Nat)
  | .mk ft _hf sels =>
    match resolveSelList schema cond frags sels with
    | .error e => .error e
    | .ok (sels2, hf2, n) => .ok (.mk ft hf2 sels2, n)

def resolveSelList (schema : Schema) (cond : String) (frags : List (String × Fragment)) :
    List Selection → Except GErr (List Selection × Bool × Nat)
  | [] => .ok ([], false, 0)
  | Selection.sfrag name :: rest =>
    match lookupMap frags name with
    | some fr =>
      if fr.cond = cond then
        match resolveSelList schema cond frags rest with
        | .error e => .error e
        | .ok (sels2, hf2, n2) => .ok (fr.selections.sels ++ sels2, hf2, n2 + 1)
      else .error (.invalidFragmentSelection fr.cond cond)
    | none =>
      match resolveSelList schema cond frags rest with
      | .error e => .error e
      | .ok (sels2, _hf2, n2) => .ok (Selection.sfrag name :: sels2, true, n2)
  | Selection.sfield name filters subs al :: rest =>
    match schema.fieldType cond name with
    | none => .error (.panicFieldTypeMissing cond name)
    | some ft =>
      match resolveSels schema ft frags subs with
      | .error e => .error e
      | .ok (subs2, _n) =>
        match resolveSelList schema cond frags rest with
        | .error e => .error e
        | .ok (sels2, hf2, n2) =>
          .ok (Selection.sfield name filters subs2 al :: sels2, hf2, n2)
end

/-- `Fragment::resolve_fragments`. -/
def Fragment.resolveFragments (schema : Schema) (frags : List (String × Fragment))
    (fr : Fragment) : Except GErr (Fragment × Nat) :=
  match resolveSels schema fr.cond frags fr.selections with
  | .error e => .error e
  | .ok (sels2, n) => .ok ({ fr with selections := sels2 }, n)

/-- `Fragment::has_fragments`. -/
def Fragment.hasFrags (fr : Fragment) : Bool := fr.selections.hasFragments

/-- One pass of the `process_fragments` fixed-point loop: resolve each
pending fragment against the (growing) map of resolved fragments; fragments
still containing spreads go to `remaining`, the others are inserted into the
map visible to the rest of the same pass.  Returns the updated map, the
remaining fragments and the total number of spreads resolved in the pass. -/
def processPass (schema : Schema) :
    List (String × Fragment) → List (String × Fragment) →
    Except GErr (List (String × Fragment) × List (String × Fragment) × Nat)
  | frags, [] => .ok (frags, [], 0)
  | frags, (name, fr) :: rest =>
    match Fragment.resolveFragments schema frags fr with
    | .error e => .error e
    | .ok (fr2, n) =>
      if fr2.hasFrags then
        match processPass schema frags rest with
        | .error e => .error e
        | .ok (frags2, remaining, n2) => .ok (frags2, (name, fr2) :: remaining, n + n2)
      else
        match processPass schema (insertMap frags name fr2) rest with
        | .error e => .error e
        | .ok (frags2, remaining, n2) => .ok (frags2, remaining, n + n2)

/-- The `loop` of `process_fragments`: a pass that resolves zero spreads
while fragments remain fails with `FragmentResolverFailed`; a pass after
which nothing remains succeeds.  The loop always terminates on states
reachable from `processFragments` (a productive pass strictly decreases the
number of top-level spreads), which the structural `fuel` bound
over-approximates; `none` marks fuel exhaustion. -/
def processFragmentsLoop (schema : Schema) :
    Nat → List (String × Fragment) → List (String × Fragment) →
    Option (Except GErr (List (String × Fragment)))
  | 0, _, _ => none
  | fuel + 1, frags, toResolve =>
    match processPass schema frags toResolve with
    | .error e => some (.error e)
    | .ok (frags2, remaining, resolved) =>
      if !remaining.isEmpty && resolved == 0 then some (.error GErr.fragmentResolverFailed)
      else if remaining.isEmpty then some (.ok frags2)
      else processFragmentsLoop schema fuel frags2 remaining

/-- The pre-loop phase of `process_fragments`: check each fragment's type
condition against the schema, then file it either into the resolved map
(no top-level spreads) or into the pending list, in document order. -/
def splitFragsAux (schema : Schema) :
    List (String × Fragment) → List (String × Fragment) → List (String × Fragment) →
    Except GErr (List (String × Fragment) × List (String × Fragment))
  | frags, toResRev, [] => .ok (frags, toResRev.reverse)
  | frags, toResRev, (name, fr) :: rest =>
    if schema.check_type fr.cond then
      if fr.hasFrags then splitFragsAux schema frags ((name, fr) :: toResRev) rest
      else splitFragsAux schema (insertMap frags name fr) toResRev rest
    else .error (GErr.unrecognizedType fr.cond)

/-- Top-level spread count, used only for the fuel bound. -/
def topSpreadCount : List Selection → Nat
  | [] => 0
  | Selection.sfrag _ :: rest => 1 + topSpreadCount rest
  | _ :: rest => topSpreadCount rest

/-- `GraphqlQueryBuilder::process_fragments`, taking the already-lowered
fragment definitions (name, type condition, selections) in document
order. -/
def processFragments (schema : Schema) (fragDefs : List (String × Fragment)) :
    Option (Except GErr (List (String × Fragment))) :=
  match splitFragsAux schema [] [] fragDefs with
  | .error e => some (.error e)
  | .ok (frags, toResolve) =>
    processFragmentsLoop schema
      ((toResolve.map (fun p => topSpreadCount p.2.selections.sels)).sum +
        toResolve.length + 1)
      frags toResolve

/-- `fragment A on Tx { ...B }`. -/
def fragCycA : Fragment := ⟨"Tx", .mk "Tx" true [.sfrag "B"]⟩

/-- `fragment B on Tx { ...A }`. -/
def fragCycB : Fragment := ⟨"Tx", .mk "Tx" true [.sfrag "A"]⟩

def c8CyclicDefs : List (String × Fragment) := [("A", fragCycA), ("B", fragCycB)]

/-- C8: fragment resolution is a fixed-point iteration — a pass that
resolves zero spreads while unresolved fragments remain makes
`process_fragments` return `FragmentResolverFailed`; in particular the
mutually cyclic fragments `fragment A on Tx { ...B } fragment B on Tx
{ ...A }` produce `FragmentResolverFailed`. -/
theorem c8_fragment_resolution_fixed_point :
    (∀ (schema : Schema) (fuel : Nat)
       (frags toResolve frags2 remaining : List (String × Fragment)) (resolved : Nat),
       processPass schema frags toResolve = .ok (frags2, remaining, resolved) →
       remaining ≠ [] → resolved = 0 →
       processFragmentsLoop schema (fuel + 1) frags toResolve =
         some (.error GErr.fragmentResolverFailed)) ∧
    processFragments schemaC1 c8CyclicDefs = some (.error GErr.fragmentResolverFailed) := by
  constructor
  · intro schema fuel frags toResolve frags2 remaining resolved hpass hrem hres
    simp only [processFragmentsLoop]
    rw [hpass]
    have hempty : remaining.isEmpty = false := by
      cases remaining with
      | nil => exact absurd rfl hrem
      | cons hd tl => rfl
    simp [hempty, hres]
  · rfl

/-- Witness for the universally quantified half of C8, at the cyclic
instance: the first pass over the cyclic fragments resolves nothing, so the
loop fails. -/
theorem c8_fragment_resolution_witness :
    processFragmentsLoop schemaC1 1 [] c8CyclicDefs =
      some (.error GErr.fragmentResolverFailed) :=
  c8_fragment_resolution_fixed_point.1 schemaC1 0 [] c8CyclicDefs [] c8CyclicDefs 0
    rfl (by simp [c8CyclicDefs]) rfl

/-- Witness for C3 at the concrete C1 query. -/
theorem c3_boundary_balance_witness :
    opensCount ((Operation.parse opC1 schemaC1).headI.elements) =
      closesCount ((Operation.parse opC1 schemaC1).headI.elements) ∧
    closesCount (((Operation.parse opC1 schemaC1).headI.elements).take 1) ≤
      opensCount (((Operation.parse opC1 schemaC1).headI.elements).take 1) := by
  have h := c3_boundary_balance opC1 schemaC1
    ((Operation.parse opC1 schemaC1).headI) (by decide)
  exact ⟨h.1, h.2 1⟩

/-! ## Schema compiler (`fuel-indexer-schema/src/db/tables.rs`)

The type-graph AST mirrors the `graphql_parser` schema AST as used by
`tables.rs`: a definition list of object types with fields, each field
carrying a type reference and its parsed directives (`@join(on:X)`,
`@unique`, `@indexed`). -/

inductive TypeRef where
  | named (t : String)
  | listOf (t : TypeRef)
  | nonNull (t : TypeRef)
  deriving DecidableEq, Repr

/-- Rust `Type::to_string()` of `graphql_parser`. -/
def TypeRef.toText : TypeRef → String
  | .named t => t
  | .listOf t => "[" ++ t.toText ++ "]"
  | .nonNull t => t.toText ++ "!"

structure FieldDef where
  name : String
  fieldType : TypeRef
  joinOn : Option String
  uniqueDir : Bool
  indexedDir : Bool
  deriving DecidableEq, Repr

structure ObjectTypeDef where
  name : String
  fields : List FieldDef
  deriving DecidableEq, Repr

inductive Definition where
  | typeObject (o : ObjectTypeDef)
  | other
  deriving DecidableEq, Repr

/-- Modelled from the spec: `ColumnType` of the external
`fuel-indexer-database` crate keeps only the distinction the sources use —
`ForeignKey` versus a primitive column type carrying its name
(`ColumnType::from(name)`). -/
inductive ColumnType where
  | foreignKey
  | primitive (name : String)
  deriving DecidableEq, Repr

/-- Modelled from the spec: `ColumnType`'s display name. -/
def ColumnType.toName : ColumnType → String
  | .foreignKey => "ForeignKey"
  | .primitive n => n

/-- `get_column_type`: a named type outside the primitive set is a foreign
key.  `none` models the Rust panic `List types not supported yet.`. -/
def getColumnType (primitives : List String) : TypeRef → Option ColumnType
  | .named t =>
    if !primitives.contains t then some ColumnType.foreignKey
    else some (ColumnType.primitive t)
  | .listOf _ => none
  | .nonNull t => getColumnType primitives t

/-- `SchemaBuilder::process_type`: also computes nullability (`NonNull`
wrappers clear it).  `none` models the list-type panic. -/
def processType (primitives : List String) : TypeRef → Option (ColumnType × Bool)
  | .named t =>
    if !primitives.contains t then some (ColumnType.foreignKey, true)
    else some (ColumnType.primitive t, true)
  | .listOf _ => none
  | .nonNull t =>
    match processType primitives t with
    | some (typ, _) => some (typ, false)
    | none => none

/-- The leaf type name of a type reference. -/
def baseTypeName : TypeRef → String
  | .named t => t
  | .listOf t => baseTypeName t
  | .nonNull t => baseTypeName t

/-- Modelled from the spec: `field_type_table_name` (from the
`fuel-indexer-schema` utils module, not among the sources) — the referenced
table of a foreign-key field is the lowercased leaf type name. -/
def fieldTypeTableName (f : FieldDef) : String := lowerString (baseTypeName f.fieldType)

/-- Modelled from the spec: the `reference_field_name` computed by
`get_join_directive_info` (missing utils module) — `X` for `@join(on: X)`,
`id` otherwise. -/
def referenceFieldName (f : FieldDef) : String := f.joinOn.getD "id"

/-- Modelled from the spec: the referenced column's type, looked up in the
schema field/type map; it only feeds the `column_type` of a foreign-key
`NewColumn`, which no claim inspects. -/
def referenceFieldTypeName (typesMap : List (String × String)) (f : FieldDef) : String :=
  (lookupMap typesMap (baseTypeName f.fieldType ++ "." ++ referenceFieldName f)).getD "ID"

structure NewColumn where
  type_id : Int
  column_position : Nat
  column_name : String
  column_type : String
  graphql_type : String
  nullable : Bool
  unique : Bool
  deriving DecidableEq, Repr

/-- `SchemaBuilder::generate_columns`, returning the table's column records
in push order; `pos` is the running enumeration index.  Each field
contributes exactly one column (and one SQL fragment — the fragments stay
1:1 with the columns, so the generated CREATE TABLE column list is the
rendering of this list and is not separately modelled), and the mandatory
`object` column is appended after the loop at position `fragments.len()`,
the number of fields.  `none` models the list-type panic in
`process_type`. -/
def generateColumns (primitives : List String) (typesMap : List (String × String))
    (typeId : Int) : Nat → List FieldDef → Option (List NewColumn)
  | pos, [] =>
    some [{ type_id := typeId, column_position := pos, column_name := "object",
            column_type := "Object", graphql_type := "__",
            nullable := false, unique := false }]
  | pos, f :: rest =>
    match processType primitives f.fieldType with
    | none => none
    | some (typ, nullable) =>
      let col : NewColumn :=
        if typ = ColumnType.foreignKey then
          { type_id := typeId, column_position := pos, column_name := f.name,
            column_type := referenceFieldTypeName typesMap f,
            graphql_type := baseTypeName f.fieldType,
            nullable := nullable, unique := f.uniqueDir }
        else
          { type_id := typeId, column_position := pos, column_name := f.name,
            column_type := typ.toName, graphql_type := f.fieldType.toText,
            nullable := nullable, unique := f.uniqueDir }
      (generateColumns primitives typesMap typeId (pos + 1) rest).map (col :: ·)

abbrev FKMap := List (String × List (String × (String × String)))

/-- The inner loop of `get_foreign_keys` over one object's fields:
`foreign_keys[lowercase(o.name)].insert(field.name, (field_type_table_name,
reference_field_name))` for every foreign-key-typed field.  `none` models
the list-type panic of `get_column_type`. -/
def addObjectFks (primitives : List String) (oname : String) :
    FKMap → List FieldDef → Option FKMap
  | acc, [] => some acc
  | acc, f :: rest =>
    match getColumnType primitives f.fieldType with
    | none => none
    | some ColumnType.foreignKey =>
      let entry := (fieldTypeTableName f, referenceFieldName f)
      let acc2 :=
        match lookupMap acc (lowerString oname) with
        | some inner => insertMap acc (lowerString oname) (insertMap inner f.name entry)
        | none => acc ++ [(lowerString oname, [(f.name, entry)])]
      addObjectFks primitives oname acc2 rest
    | some (ColumnType.primitive _) => addObjectFks primitives oname acc rest

/-- The outer loop of `get_foreign_keys`: object types whose lowercased
name is `queryroot` are skipped. -/
def getForeignKeysAux (primitives : List String) :
    FKMap → List Definition → Option FKMap
  | acc, [] => some acc
  | acc, Definition.typeObject o :: rest =>
    if lowerString o.name == "queryroot" then getForeignKeysAux primitives acc rest
    else
      match addObjectFks primitives o.name acc o.fields with
      | none => none
      | some acc2 => getForeignKeysAux primitives acc2 rest
  | acc, Definition.other :: rest => getForeignKeysAux primitives acc rest

/-- `get_foreign_keys` of `tables.rs` (over the parsed schema document; the
text-to-AST parsing is done by the external `graphql_parser` crate). -/
def getForeignKeys (primitives : List String) (defs : List Definition) : Option FKMap :=
  getForeignKeysAux primitives [] defs

/-- The lowercased names of all object-type definitions, in order. -/
def objectNamesLower (defs : List Definition) : List String :=
  defs.filterMap fun d =>
    match d with
    | .typeObject o => some (lowerString o.name)
    | .other => none

theorem objectNamesLower_cons_obj (o : ObjectTypeDef) (rest : List Definition) :
    objectNamesLower (Definition.typeObject o :: rest) =
      lowerString o.name :: objectNamesLower rest := by
  simp [objectNamesLower]

theorem objectNamesLower_cons_other (rest : List Definition) :
    objectNamesLower (Definition.other :: rest) = objectNamesLower rest := by
  simp [objectNamesLower]

theorem lookupMap_append_single_ne {α : Type} (m : List (String × α)) (k2 k : String) (v : α)
    (h : k2 ≠ k) : lookupMap (m ++ [(k2, v)]) k = lookupMap m k := by
  induction m with
  | nil => simp [lookupMap, h]
  | cons hd tl ih =>
    obtain ⟨k0, v0⟩ := hd
    by_cases h0 : k0 = k <;> simp [lookupMap, h0, ih]

theorem lookupMap_append_single_self {α : Type} (m : List (String × α)) (k : String) (v : α)
    (h : lookupMap m k = none) : lookupMap (m ++ [(k, v)]) k = some v := by
  induction m with
  | nil => simp [lookupMap]
  | cons hd tl ih =>
    obtain ⟨k0, v0⟩ := hd
    by_cases h0 : k0 = k
    · simp [lookupMap, h0] at h
    · simp [lookupMap, h0] at h ⊢
      exact ih h

/-- Once `fname ↦ v` is recorded under the object's key, processing further
fields with different names keeps it. -/
theorem addObjectFks_preserves_entry (primitives : List String) (oname fname : String)
    (v : String × String) :
    ∀ (fields : List FieldDef) (acc acc2 : FKMap) (inner : List (String × (String × String))),
      (∀ g ∈ fields, g.name ≠ fname) →
      lookupMap acc (lowerString oname) = some inner →
      lookupMap inner fname = some v →
      addObjectFks primitives oname acc fields = some acc2 →
      ∃ inner2, lookupMap acc2 (lowerString oname) = some inner2 ∧
        lookupMap inner2 fname = some v := by
  intro fields
  induction fields with
  | nil =>
    intro acc acc2 inner _ hacc hinner heq
    simp only [addObjectFks, Option.some_inj] at heq
    subst heq
    exact ⟨inner, hacc, hinner⟩
  | cons g rest ih =>
    intro acc acc2 inner hne hacc hinner heq
    simp only [addObjectFks] at heq
    cases hct : getColumnType primitives g.fieldType with
    | none => simp [hct] at heq
    | some ct =>
      cases ct with
      | primitive n =>
        simp only [hct] at heq
        exact ih acc acc2 inner (fun x hx => hne x (List.mem_cons_of_mem _ hx)) hacc hinner heq
      | foreignKey =>
        simp only [hct, hacc] at heq
        have hgne : g.name ≠ fname := hne g (List.mem_cons_self _ _)
        refine ih _ acc2 (insertMap inner g.name (fieldTypeTableName g, referenceFieldName g))
          (fun x hx => hne x (List.mem_cons_of_mem _ hx)) ?_ ?_ heq
        · exact lookupMap_insertMap_self ..
        · rw [lookupMap_insertMap_ne _ _ _ _ hgne]
          exact hinner

/-- Processing an object's fields inserts every foreign-key field's entry
under the object's lowercased name (given distinct field names). -/
theorem addObjectFks_inserts (primitives : List String) (oname : String) :
    ∀ (fields : List FieldDef) (acc acc2 : FKMap) (f : FieldDef),
      f ∈ fields →
      (fields.map FieldDef.name).Nodup →
      getColumnType primitives f.fieldType = some ColumnType.foreignKey →
      addObjectFks primitives oname acc fields = some acc2 →
      ∃ inner2, lookupMap acc2 (lowerString oname) = some inner2 ∧
        lookupMap inner2 f.name = some (fieldTypeTableName f, referenceFieldName f) := by
  intro fields
  induction fields with
  | nil => intro _ _ _ hmem; cases hmem
  | cons g rest ih =>
    intro acc acc2 f hmem hnodup hfk heq
    simp only [addObjectFks] at heq
    have hnodup' := hnodup
    rw [List.map_cons, List.nodup_cons] at hnodup'
    have hne_rest : ∀ x ∈ rest, x.name ≠ g.name := by
      intro x hx hxe
      exact hnodup'.1 (hxe ▸ List.mem_map_of_mem FieldDef.name hx)
    rcases List.mem_cons.mp hmem with hfg | hmem2
    · subst hfg
      simp only [hfk] at heq
      cases hacc : lookupMap acc (lowerString oname) with
      | some inner0 =>
        simp only [hacc] at heq
        refine addObjectFks_preserves_entry primitives oname f.name _ rest _ acc2
          (insertMap inner0 f.name (fieldTypeTableName f, referenceFieldName f))
          (fun x hx => hne_rest x hx) ?_ ?_ heq
        · exact lookupMap_insertMap_self ..
        · exact lookupMap_insertMap_self ..
      | none =>
        simp only [hacc] at heq
        refine addObjectFks_preserves_entry primitives oname f.name _ rest _ acc2
          [(f.name, (fieldTypeTableName f, referenceFieldName f))]
          (fun x hx => hne_rest x hx) ?_ ?_ heq
        · exact lookupMap_append_single_self _ _ _ hacc
        · simp [lookupMap]
    · have hnodup2 : (rest.map FieldDef.name).Nodup := hnodup'.2
      cases hct : getColumnType primitives g.fieldType with
      | none => simp [hct] at heq
      | some ct =>
        cases ct with
        | primitive n =>
          simp only [hct] at heq
          exact ih acc acc2 f hmem2 hnodup2 hfk heq
        | foreignKey =>
          cases hacc : lookupMap acc (lowerString oname) with
          | some inner0 =>
            simp only [hct, hacc] at heq
            exact ih _ acc2 f hmem2 hnodup2 hfk heq
          | none =>
            simp only [hct, hacc] at heq
            exact ih _ acc2 f hmem2 hnodup2 hfk heq

/-- Processing one object never touches other objects' keys. -/
theorem addObjectFks_preserves_other_key (primitives : List String) (oname k : String)
    (hk : k ≠ lowerString oname) :
    ∀ (fields : List FieldDef) (acc acc2 : FKMap),
      addObjectFks primitives oname acc fields = some acc2 →
      lookupMap acc2 k = lookupMap acc k := by
  intro fields
  induction fields with
  | nil =>
    intro acc acc2 heq
    simp only [addObjectFks, Option.some_inj] at heq
    rw [heq]
  | cons g rest ih =>
    intro acc acc2 heq
    simp only [addObjectFks] at heq
    cases hct : getColumnType primitives g.fieldType with
    | none => simp [hct] at heq
    | some ct =>
      cases ct with
      | primitive n =>
        simp only [hct] at heq
        exact ih acc acc2 heq
      | foreignKey =>
        cases hacc : lookupMap acc (lowerString oname) with
        | some inner0 =>
          simp only [hct, hacc] at heq
          rw [ih _ acc2 heq]
          exact lookupMap_insertMap_ne _ _ _ _ (fun h => hk h.symm)
        | none =>
          simp only [hct, hacc] at heq
          rw [ih _ acc2 heq]
          exact lookupMap_append_single_ne _ _ _ _ (fun h => hk h.symm)

/-- The outer loop never touches keys of objects not in the remaining
definitions. -/
theorem getForeignKeysAux_preserves_key (primitives : List String) (k : String) :
    ∀ (defs : List Definition) (acc fks : FKMap),
      getForeignKeysAux primitives acc defs = some fks →
      k ∉ objectNamesLower defs →
      lookupMap fks k = lookupMap acc k := by
  intro defs
  induction defs with
  | nil =>
    intro acc fks heq _
    simp only [getForeignKeysAux, Option.some_inj] at heq
    rw [heq]
  | cons d rest ih =>
    intro acc fks heq hk
    cases d with
    | other =>
      simp only [getForeignKeysAux] at heq
      exact ih acc fks heq (by simpa [objectNamesLower] using hk)
    | typeObject o =>
      have hk1 : k ≠ lowerString o.name := by
        intro h
        exact hk (by simp [objectNamesLower, h])
      have hk2 : k ∉ objectNamesLower rest := by
        intro h
        exact hk (by simp [objectNamesLower]; right; simpa [objectNamesLower] using h)
      simp only [getForeignKeysAux] at heq
      by_cases hq : (lowerString o.name == "queryroot") = true
      · rw [if_pos hq] at heq
        exact ih acc fks heq hk2
      · rw [if_neg hq] at heq
        cases hadd : addObjectFks primitives o.name acc o.fields with
        | none => simp [hadd] at heq
        | some acc2 =>
          rw [hadd] at heq
          rw [ih acc2 fks heq hk2]
          exact addObjectFks_preserves_other_key primitives o.name k hk1 o.fields acc acc2 hadd

/-- Generalized completeness of the outer loop over an accumulator. -/
theorem getForeignKeysAux_complete (primitives : List String) (o : ObjectTypeDef)
    (f : FieldDef)
    (hroot : lowerString o.name ≠ "queryroot")
    (hf : f ∈ o.fields)
    (hfk : getColumnType primitives f.fieldType = some ColumnType.foreignKey)
    (hfields : (o.fields.map FieldDef.name).Nodup) :
    ∀ (defs : List Definition) (acc fks : FKMap),
      getForeignKeysAux primitives acc defs = some fks →
      Definition.typeObject o ∈ defs →
      (objectNamesLower defs).Nodup →
      ∃ inner, lookupMap fks (lowerString o.name) = some inner ∧
        lookupMap inner f.name = some (fieldTypeTableName f, referenceFieldName f) := by
  intro defs
  induction defs with
  | nil => intro _ _ _ hmem; cases hmem
  | cons d rest ih =>
    intro acc fks heq hmem hnodup
    rcases List.mem_cons.mp hmem with hdo | hmem2
    · subst hdo
      simp only [getForeignKeysAux] at heq
      have hq : (lowerString o.name == "queryroot") = false := by
        simpa using hroot
      rw [hq] at heq
      simp only [Bool.false_eq_true, if_false] at heq
      cases hadd : addObjectFks primitives o.name acc o.fields with
      | none => simp [hadd] at heq
      | some acc2 =>
        rw [hadd] at heq
        obtain ⟨inner, h1, h2⟩ :=
          addObjectFks_inserts primitives o.name o.fields acc acc2 f hf hfields hfk hadd
        have hnot : lowerString o.name ∉ objectNamesLower rest := by
          have hn := hnodup
          rw [objectNamesLower_cons_obj, List.nodup_cons] at hn
          exact hn.1
        rw [getForeignKeysAux_preserves_key primitives (lowerString o.name) rest acc2 fks
          heq hnot]
        exact ⟨inner, h1, h2⟩
    · have hnodup2 : (objectNamesLower rest).Nodup := by
        cases d with
        | other =>
          rw [objectNamesLower_cons_other] at hnodup
          exact hnodup
        | typeObject o2 =>
          rw [objectNamesLower_cons_obj, List.nodup_cons] at hnodup
          exact hnodup.2
      cases d with
      | other =>
        simp only [getForeignKeysAux] at heq
        exact ih acc fks heq hmem2 hnodup2
      | typeObject o2 =>
        simp only [getForeignKeysAux] at heq
        by_cases hq : (lowerString o2.name == "queryroot") = true
        · rw [if_pos hq] at heq
          exact ih acc fks heq hmem2 hnodup2
        · rw [if_neg hq] at heq
          cases hadd : addObjectFks primitives o2.name acc o2.fields with
          | none => simp [hadd] at heq
          | some acc2 =>
            rw [hadd] at heq
            exact ih acc2 fks heq hmem2 hnodup2

/-- C2: for every schema document (with distinct lowercased object names and
distinct field names per object, as produced by a well-typed schema), every
field `F` of an object type other than the query root (the type whose
lowercased name is `queryroot`, as `get_foreign_keys` identifies it) whose
type `T` is not primitive gets a foreign-key dictionary entry
`lowercase(owner) → F → (lowercase(T), C)`, where `C` is `X` for
`@join(on:X)` and `id` otherwise. -/
theorem c2_fk_dictionary_completeness (primitives : List String) (defs : List Definition)
    (o : ObjectTypeDef) (f : FieldDef) (fks : FKMap)
    (hdefs : getForeignKeys primitives defs = some fks)
    (ho : Definition.typeObject o ∈ defs)
    (hroot : lowerString o.name ≠ "queryroot")
    (hf : f ∈ o.fields)
    (hfk : getColumnType primitives f.fieldType = some ColumnType.foreignKey)
    (hobjnames : (objectNamesLower defs).Nodup)
    (hfields : (o.fields.map FieldDef.name).Nodup) :
    ∃ inner, lookupMap fks (lowerString o.name) = some inner ∧
      lookupMap inner f.name =
        some (lowerString (baseTypeName f.fieldType),
          match f.joinOn with
          | some x => x
          | none => "id") := by
  obtain ⟨inner, h1, h2⟩ :=
    getForeignKeysAux_complete primitives o f hroot hf hfk hfields defs [] fks hdefs
      ho hobjnames
  refine ⟨inner, h1, ?_⟩
  rw [h2]
  cases hj : f.joinOn <;> simp [fieldTypeTableName, referenceFieldName, hj]

/-! ## Fixtures from the `tables.rs` unit tests -/

/-- The primitive scalar names used by the fixtures (a subset of the base
schema's primitive set). -/
def basePrimitives : List String := ["ID", "Address", "Bytes32", "Int8", "UInt8", "Json"]

def borrowerObj : ObjectTypeDef :=
  ⟨"Borrower", [⟨"id", .nonNull (.named "ID"), none, false, false⟩,
                ⟨"account", .nonNull (.named "Address"), none, false, true⟩]⟩

def lenderObj : ObjectTypeDef :=
  ⟨"Lender", [⟨"id", .nonNull (.named "ID"), none, false, false⟩,
              ⟨"account", .nonNull (.named "Address"), none, false, false⟩,
              ⟨"hash", .nonNull (.named "Bytes32"), none, false, true⟩,
              ⟨"borrower", .nonNull (.named "Borrower"), none, false, false⟩]⟩

/-- The implicit-foreign-key schema of
`test_get_implicit_foreign_keys_for_schema` (minus `Auditor`). -/
def fkTestDefs : List Definition :=
  [Definition.other,
   Definition.typeObject ⟨"QueryRoot",
     [⟨"borrower", .named "Borrower", none, false, false⟩,
      ⟨"lender", .named "Lender", none, false, false⟩]⟩,
   Definition.typeObject borrowerObj,
   Definition.typeObject lenderObj]

/-- Witness for C2: on the implicit-FK test schema, `lender.borrower` maps
to `(borrower, id)`. -/
theorem c2_fk_dictionary_witness :
    ∃ inner,
      lookupMap [("lender", [("borrower", ("borrower", "id"))])]
          (lowerString lenderObj.name) = some inner ∧
      lookupMap inner "borrower" =
        some (lowerString (baseTypeName (TypeRef.nonNull (.named "Borrower"))),
          match (none : Option String) with
          | some x => x
          | none => "id") :=
  c2_fk_dictionary_completeness basePrimitives fkTestDefs lenderObj
    ⟨"borrower", .nonNull (.named "Borrower"), none, false, false⟩
    [("lender", [("borrower", ("borrower", "id"))])]
    (by decide) (by decide) (by decide) (by decide) (by decide) (by decide) (by decide)

/-! ## C5: the mandatory `object` column -/

/-- Generalized over the running position: `generate_columns` emits one
column per field and then the `object` column. -/
theorem generateColumns_object_last (primitives : List String)
    (typesMap : List (String × String)) (typeId : Int) :
    ∀ (fields : List FieldDef) (pos : Nat) (cols : List NewColumn),
      generateColumns primitives typesMap typeId pos fields = some cols →
      ∃ userCols,
        cols = userCols ++
          [{ type_id := typeId, column_position := pos + fields.length,
             column_name := "object", column_type := "Object", graphql_type := "__",
             nullable := false, unique := false }] ∧
        userCols.length = fields.length := by
  intro fields
  induction fields with
  | nil =>
    intro pos cols h
    simp only [generateColumns, Option.some_inj] at h
    exact ⟨[], by simpa using h.symm, rfl⟩
  | cons f rest ih =>
    intro pos cols h
    simp only [generateColumns] at h
    cases hpt : processType primitives f.fieldType with
    | none => simp [hpt] at h
    | some tn =>
      obtain ⟨typ, nullable⟩ := tn
      rw [hpt] at h
      cases hg : generateColumns primitives typesMap typeId (pos + 1) rest with
      | none => rw [hg] at h; simp at h
      | some cols2 =>
        rw [hg] at h
        simp only [Option.map_some', Option.some_inj] at h
        obtain ⟨userCols, hdec, hlen⟩ := ih (pos + 1) cols2 hg
        rw [← h, hdec]
        simp only [List.length_cons]
        have hp : pos + 1 + rest.length = pos + (rest.length + 1) := by omega
        rw [hp]
        exact ⟨_ :: userCols, rfl, by simp [hlen]⟩

/-- C5: whenever `generate_columns` succeeds (no list-typed field), the
emitted column list is the user-declared columns, one per field in order,
followed by a final mandatory `object` column of column type `Object`
(rendered as opaque bytes, e.g. `bytea`), with `nullable = false`,
`unique = false`, at position `fields.len()`.  `generate_table_sql` invokes
it exactly for the object types other than the query root. -/
theorem c5_object_column_appended (primitives : List String)
    (typesMap : List (String × String)) (typeId : Int) (fields : List FieldDef)
    (cols : List NewColumn)
    (h : generateColumns primitives typesMap typeId 0 fields = some cols) :
    ∃ userCols objectCol,
      cols = userCols ++ [objectCol] ∧
      userCols.length = fields.length ∧
      objectCol.column_name = "object" ∧
      objectCol.column_type = "Object" ∧
      objectCol.nullable = false ∧
      objectCol.unique = false ∧
      objectCol.column_position = fields.length := by
  obtain ⟨userCols, hdec, hlen⟩ :=
    generateColumns_object_last primitives typesMap typeId fields 0 cols h
  exact ⟨userCols,
    { type_id := typeId, column_position := 0 + fields.length, column_name := "object",
      column_type := "Object", graphql_type := "__", nullable := false, unique := false },
    hdec, hlen, rfl, rfl, rfl, rfl, by simp⟩

/-- The `Thing1` fields of the first `tables.rs` unit test. -/
def thing1Fields : List FieldDef :=
  [⟨"id", .nonNull (.named "ID"), none, false, false⟩,
   ⟨"account", .nonNull (.named "Address"), none, false, false⟩]

/-- Witness for C5 on the `Thing1` fixture. -/
theorem c5_object_column_witness :
    ∃ userCols objectCol,
      ([⟨7, 0, "id", "ID", "ID!", false, false⟩,
        ⟨7, 1, "account", "Address", "Address!", false, false⟩,
        ⟨7, 2, "object", "Object", "__", false, false⟩] : List NewColumn) =
        userCols ++ [objectCol] ∧
      userCols.length = thing1Fields.length ∧
      objectCol.column_name = "object" ∧
      objectCol.column_type = "Object" ∧
      objectCol.nullable = false ∧
      objectCol.unique = false ∧
      objectCol.column_position = thing1Fields.length :=
  c5_object_column_appended basePrimitives [] 7 thing1Fields _ (by decide)

/-! ## C9: `commit_metadata` versus `load_from_db` -/

/-- A DDL foreign-key record pushed by `generate_columns` (the seven
constructor arguments of `ForeignKey::new` in the external
`fuel-indexer-database` crate). -/
structure ForeignKeyRec where
  db_type : String
  namespc : String
  table_name : String
  column_name : String
  reference_table_name : String
  reference_column_name : String
  reference_column_type : String
  deriving DecidableEq, Repr

/-- The `SchemaBuilder` state destructured by `commit_metadata`. -/
structure SchemaBuilderS where
  db_type : String
  statements : List String
  type_ids : List Int
  columns : List NewColumn
  foreign_keys : List ForeignKeyRec
  namespc : String
  identifier : String
  version : String
  schemaDefs : List Definition
  types : List String
  fields : List (String × List (String × String))
  query : String
  query_fields : List (String × List (String × String))
  primitives : List String

/-- Modelled from the spec around the database writes (which are assumed to
succeed and are represented by the builder state itself): the reflection
`Schema` value returned by `SchemaBuilder::commit_metadata`, whose
`foreign_keys` field is the literal `HashMap::new()`. -/
def commitMetadataSchema (sb : SchemaBuilderS) : Schema :=
  { version := sb.version
    namespc := sb.namespc
    identifier := sb.identifier
    query := sb.query
    types := sb.types
    fields := sb.fields
    foreign_keys := [] }

/-- The persisted `graph_root` row; the persisted schema text is kept in
parsed form (`schemaDefs`) since text parsing lives in the external
`graphql_parser` crate. -/
structure GraphRoot where
  id : Int
  version : String
  schema_name : String
  schema_identifier : String
  query : String
  schemaDefs : List Definition

/-- Modelled from the spec around the metadata queries: `Schema::load_from_db`
reassembles the reflection `Schema` from the persisted rows (`root`, the
root columns and the per-type-id column lists) and recomputes
`foreign_keys` with `get_foreign_keys` over the persisted schema.  `none`
models the list-type panic of `get_column_type`. -/
def loadFromDbSchema (primitives : List String) (root : GraphRoot)
    (rootCols : List (String × String))
    (typeids : List (String × List (String × String))) : Option Schema :=
  match getForeignKeys primitives root.schemaDefs with
  | none => none
  | some fks =>
    some
      { version := root.version
        namespc := root.schema_name
        identifier := root.schema_identifier
        query := root.query
        types := root.query :: typeids.map Prod.fst
        fields := (root.query, rootCols) :: typeids
        foreign_keys := fks }

/-- C9: the `Schema` returned by `commit_metadata` always carries an empty
foreign-key dictionary, whatever foreign keys the builder compiled; a
reflection `Schema` gets its foreign keys only from `load_from_db`, which
re-derives them from the persisted schema via `get_foreign_keys`. -/
theorem c9_commit_metadata_empty_foreign_keys :
    (∀ sb : SchemaBuilderS, (commitMetadataSchema sb).foreign_keys = []) ∧
    (∀ (primitives : List String) (root : GraphRoot)
       (rootCols : List (String × String))
       (typeids : List (String × List (String × String))) (s : Schema),
       loadFromDbSchema primitives root rootCols typeids = some s →
       getForeignKeys primitives root.schemaDefs = some s.foreign_keys) := by
  constructor
  · intro sb
    rfl
  · intro primitives root rootCols typeids s h
    unfold loadFromDbSchema at h
    cases hfk : getForeignKeys primitives root.schemaDefs with
    | none => rw [hfk] at h; simp at h
    | some fks =>
      rw [hfk] at h
      simp only [Option.some_inj] at h
      rw [← h]

/-- Witness for C9: a builder that compiled one foreign key still returns
an empty dictionary, while `load_from_db` over the same persisted schema
recovers `lender.borrower → (borrower, id)`. -/
theorem c9_commit_metadata_witness :
    (commitMetadataSchema
      { db_type := "Postgres", statements := [], type_ids := [], columns := [],
        foreign_keys := [⟨"Postgres", "ns_id", "lender", "borrower", "borrower", "id", "ID"⟩],
        namespc := "ns", identifier := "id", version := "v1",
        schemaDefs := fkTestDefs, types := ["QueryRoot", "Borrower", "Lender"],
        fields := [], query := "QueryRoot", query_fields := [],
        primitives := basePrimitives }).foreign_keys = [] ∧
    getForeignKeys basePrimitives
        (GraphRoot.mk 1 "v1" "ns" "id" "QueryRoot" fkTestDefs).schemaDefs =
      some [("lender", [("borrower", ("borrower", "id"))])] := by
  constructor
  · exact c9_commit_metadata_empty_foreign_keys.1 _
  · exact c9_commit_metadata_empty_foreign_keys.2 basePrimitives
      (GraphRoot.mk 1 "v1" "ns" "id" "QueryRoot" fkTestDefs) [] []
      { version := "v1", namespc := "ns", identifier := "id", query := "QueryRoot",
        types := ["QueryRoot"], fields := [("QueryRoot", [])],
        foreign_keys := [("lender", [("borrower", ("borrower", "id"))])] }
      rfl

/-! ## Constants (`fuel-indexer-lib/src/defaults.rs`) -/

def INDEX_FAILED_CALLS : Nat := 10
def MAX_EMPTY_BLOCK_REQUESTS : Nat := 10
def DELAY_FOR_SERVICE_ERR : Nat := 5
def DELAY_FOR_EMPTY_PAGE : Nat := 1
def NODE_GRAPHQL_PAGE_SIZE : Nat := 10

/-- Rust `usize::MAX` on the 64-bit targets this service runs on. -/
def USIZE_MAX : Nat := 2 ^ 64 - 1

/-! ## Executor transactions (`fuel-indexer/src/executor.rs`, C4) -/

inductive DbEvent where
  | start
  | write (c : Nat)
  | commit
  | revert
  deriving DecidableEq, Repr

/-- Modelled from the spec: the transactional `Database` session of the
`fuel-indexer` crate (`database.rs` is not among the sources; the spec
says both substrates wrap the invocation in `begin → (run) → commit |
rollback`).  `committed` holds the visible rows, `pending` the open
transaction's buffered changes. -/
structure TxDb where
  committed : List Nat
  pending : Option (List Nat)
  deriving DecidableEq, Repr

def dbStep (db : TxDb) : DbEvent → TxDb
  | .start => { db with pending := some [] }
  | .write c => { db with pending := db.pending.map (· ++ [c]) }
  | .commit =>
    match db.pending with
    | some p => { committed := db.committed ++ p, pending := none }
    | none => db
  | .revert => { db with pending := none }

def dbRun (db : TxDb) (es : List DbEvent) : TxDb := es.foldl dbStep db

/-- `NativeIndexExecutor::handle_events` as the database event trace it
produces, paired with whether it returns `Ok`: start a transaction, run the
handler function (abstracted as the row writes it performs plus its
success flag), then commit on success, or revert and return `Err` on
failure. -/
def nativeHandleEvents (handlerWrites : List Nat) (handlerOk : Bool) :
    List DbEvent × Bool :=
  (DbEvent.start :: (handlerWrites.map DbEvent.write ++
     [if handlerOk then DbEvent.commit else DbEvent.revert]),
   handlerOk)

/-- `WasmIndexExecutor::handle_events`: serialization, argument marshalling
and entry-point lookup happen before the transaction starts, so a failure
there (`setupOk = false`) returns `Err` with no database events; otherwise
as in the native executor: start, call the module entry point on a blocking
worker, commit on success or revert on a trap. -/
def wasmHandleEvents (setupOk : Bool) (handlerWrites : List Nat) (callOk : Bool) :
    List DbEvent × Bool :=
  if !setupOk then ([], false)
  else
    (DbEvent.start :: (handlerWrites.map DbEvent.write ++
       [if callOk then DbEvent.commit else DbEvent.revert]),
     callOk)

theorem dbRun_writes (writes : List Nat) :
    ∀ (db : TxDb) (p : List Nat), db.pending = some p →
      dbRun db (writes.map DbEvent.write) =
        { committed := db.committed, pending := some (p ++ writes) } := by
  induction writes with
  | nil =>
    intro db p hp
    obtain ⟨c, pd⟩ := db
    simp at hp
    simp [dbRun, hp]
  | cons w rest ih =>
    intro db p hp
    have hstep : dbStep db (DbEvent.write w) =
        { committed := db.committed, pending := some (p ++ [w]) } := by
      obtain ⟨c, pd⟩ := db
      simp at hp
      simp [dbStep, hp]
    calc dbRun db ((w :: rest).map DbEvent.write)
        = dbRun (dbStep db (DbEvent.write w)) (rest.map DbEvent.write) := rfl
      _ = _ := by
          rw [hstep, ih _ (p ++ [w]) rfl]
          simp

/-- C4: both executors start a transaction first (after the wasm-side
argument marshalling), return `Ok` exactly when the handler succeeded, and
leave the database with all of the handler's writes committed on success
and none of them on failure — the batch is all-or-nothing. -/
theorem c4_handle_events_transactional :
    (∀ (writes : List Nat) (ok : Bool) (db : TxDb),
      (nativeHandleEvents writes ok).1.head? = some DbEvent.start ∧
      (nativeHandleEvents writes ok).2 = ok ∧
      (dbRun db (nativeHandleEvents writes ok).1).committed =
        db.committed ++ (if ok then writes else []) ∧
      (dbRun db (nativeHandleEvents writes ok).1).pending = none) ∧
    (∀ (writes : List Nat) (ok : Bool) (db : TxDb),
      (wasmHandleEvents true writes ok).1.head? = some DbEvent.start ∧
      (wasmHandleEvents true writes ok).2 = ok ∧
      (dbRun db (wasmHandleEvents true writes ok).1).committed =
        db.committed ++ (if ok then writes else []) ∧
      (dbRun db (wasmHandleEvents true writes ok).1).pending = none) := by
  have main : ∀ (writes : List Nat) (ok : Bool) (db : TxDb),
      dbRun db (DbEvent.start :: (writes.map DbEvent.write ++
        [if ok then DbEvent.commit else DbEvent.revert])) =
      { committed := db.committed ++ (if ok then writes else []), pending := none } := by
    intro writes ok db
    have h1 : dbRun db (DbEvent.start :: (writes.map DbEvent.write ++
        [if ok then DbEvent.commit else DbEvent.revert])) =
        dbRun { committed := db.committed, pending := some [] }
          (writes.map DbEvent.write ++ [if ok then DbEvent.commit else DbEvent.revert]) := by
      rfl
    rw [h1]
    have h2 : dbRun { committed := db.committed, pending := (some [] : Option (List Nat)) }
        (writes.map DbEvent.write ++ [if ok then DbEvent.commit else DbEvent.revert]) =
        dbRun (dbRun { committed := db.committed, pending := (some [] : Option (List Nat)) }
          (writes.map DbEvent.write)) [if ok then DbEvent.commit else DbEvent.revert] := by
      simp [dbRun, List.foldl_append]
    rw [h2, dbRun_writes writes _ [] rfl]
    cases ok <;> simp [dbRun, dbStep]
  constructor
  · intro writes ok db
    refine ⟨rfl, rfl, ?_, ?_⟩
    · show (dbRun db (DbEvent.start :: (writes.map DbEvent.write ++
        [if ok then DbEvent.commit else DbEvent.revert]))).committed = _
      rw [main]
    · show (dbRun db (DbEvent.start :: (writes.map DbEvent.write ++
        [if ok then DbEvent.commit else DbEvent.revert]))).pending = _
      rw [main]
  · intro writes ok db
    refine ⟨rfl, rfl, ?_, ?_⟩
    · show (dbRun db (DbEvent.start :: (writes.map DbEvent.write ++
        [if ok then DbEvent.commit else DbEvent.revert]))).committed = _
      rw [main]
    · show (dbRun db (DbEvent.start :: (writes.map DbEvent.write ++
        [if ok then DbEvent.commit else DbEvent.revert]))).pending = _
      rw [main]

/-! ## Ingestion scheduler loop (`run_executor`, C6/C7/C10)

The loop body is modelled as a step function over the scheduler's mutable
state `{ next_cursor, retry_count, num_empty_block_reqs }`, driven by one
round of environment inputs: the paginated fetch outcome (`err` is a
transport failure, for which the Rust `unwrap_or_else` substitutes an empty
`PaginatedResult` with `cursor: None`), the executor's `handle_events`
outcome for the (identically enriched) batch, and the kill-switch value.
The step records the sleeps it performs and the batch passed to the
handler. -/

structure SchedState where
  next_cursor : Option String
  retry_count : Nat
  num_empty_block_reqs : Nat
  deriving DecidableEq, Repr

inductive FetchOutcome where
  | ok (cursor : Option String) (blocks : List Nat)
  | err
  deriving DecidableEq, Repr

structure StepInput where
  fetch : FetchOutcome
  handlerOk : Bool
  kill : Bool
  deriving DecidableEq, Repr

structure StepResult where
  state : SchedState
  exit : Bool
  sleeps : List Nat
  handlerBatch : List Nat
  deriving DecidableEq, Repr

/-- One iteration of the `loop` in `run_executor`. -/
def runStep (stopIdle : Bool) (s : SchedState) (i : StepInput) : StepResult :=
  let maxEmpty := if stopIdle then MAX_EMPTY_BLOCK_REQUESTS else USIZE_MAX
  let fetched :=
    match i.fetch with
    | .ok c r => (c, r)
    | .err => ((none : Option String), ([] : List Nat))
  let cursor := fetched.1
  let results := fetched.2
  if !i.handlerOk then
    let retry := s.retry_count + 1
    if retry < INDEX_FAILED_CALLS then
      { state := { s with retry_count := retry }, exit := false,
        sleeps := [DELAY_FOR_SERVICE_ERR], handlerBatch := results }
    else
      { state := { s with retry_count := retry }, exit := true,
        sleeps := [DELAY_FOR_SERVICE_ERR], handlerBatch := results }
  else
    match cursor with
    | none =>
      let ne := s.num_empty_block_reqs + 1
      if ne = maxEmpty then
        { state := { s with num_empty_block_reqs := ne }, exit := true,
          sleeps := [DELAY_FOR_EMPTY_PAGE], handlerBatch := results }
      else if i.kill then
        { state := { s with num_empty_block_reqs := ne }, exit := true,
          sleeps := [DELAY_FOR_EMPTY_PAGE], handlerBatch := results }
      else
        { state := { s with num_empty_block_reqs := ne, retry_count := 0 },
          exit := false, sleeps := [DELAY_FOR_EMPTY_PAGE], handlerBatch := results }
    | some c =>
      if i.kill then
        { state := { s with next_cursor := some c, num_empty_block_reqs := 0 },
          exit := true, sleeps := [], handlerBatch := results }
      else
        { state := { next_cursor := some c, retry_count := 0, num_empty_block_reqs := 0 },
          exit := false, sleeps := [], handlerBatch := results }

/-- Iterate `runStep` over a list of inputs, stopping at the first exit;
the flag reports whether the loop exited. -/
def runSteps (stopIdle : Bool) : SchedState → List StepInput → SchedState × Bool
  | s, [] => (s, false)
  | s, i :: rest =>
    let r := runStep stopIdle s i
    if r.exit then (r.state, true) else runSteps stopIdle r.state rest

/-- C6 counterexample: at the concrete state (cursor `"5"`, no retries, no
empty pages) a transport failure with a succeeding handler sleeps
`DELAY_FOR_EMPTY_PAGE`, never `DELAY_FOR_SERVICE_ERR`, and the handler is
invoked on the substituted empty batch. -/
theorem c6_transport_failure_counterexample :
    (runStep false ⟨some "5", 0, 0⟩ ⟨FetchOutcome.err, true, false⟩).sleeps =
      [DELAY_FOR_EMPTY_PAGE] ∧
    DELAY_FOR_SERVICE_ERR ∉
      (runStep false ⟨some "5", 0, 0⟩ ⟨FetchOutcome.err, true, false⟩).sleeps ∧
    DELAY_FOR_EMPTY_PAGE ≠ DELAY_FOR_SERVICE_ERR ∧
    (runStep false ⟨some "5", 0, 0⟩ ⟨FetchOutcome.err, true, false⟩).handlerBatch = [] ∧
    (runStep false ⟨some "5", 0, 0⟩
      ⟨FetchOutcome.err, true, false⟩).state.num_empty_block_reqs = 1 := by
  refine ⟨by decide, by decide, by decide, by decide, by decide⟩

/-- C6 amended: on a transport failure the scheduler logs the error and
substitutes an empty result page with no cursor; the handler still runs on
the empty batch and, when it succeeds (and neither the empty-page cap nor
the kill switch applies), the loop sleeps `DELAY_FOR_EMPTY_PAGE` seconds,
increments `num_empty_block_reqs`, and continues to the next iteration
without advancing the cursor.  (`DELAY_FOR_SERVICE_ERR` is slept only when
`handle_events` itself fails.) -/
theorem c6_transport_failure_behavior (stopIdle : Bool) (s : SchedState)
    (hcap : s.num_empty_block_reqs + 1 ≠
      (if stopIdle then MAX_EMPTY_BLOCK_REQUESTS else USIZE_MAX)) :
    (runStep stopIdle s ⟨FetchOutcome.err, true, false⟩).exit = false ∧
    (runStep stopIdle s ⟨FetchOutcome.err, true, false⟩).state.next_cursor =
      s.next_cursor ∧
    (runStep stopIdle s ⟨FetchOutcome.err, true, false⟩).sleeps =
      [DELAY_FOR_EMPTY_PAGE] ∧
    (runStep stopIdle s ⟨FetchOutcome.err, true, false⟩).state.num_empty_block_reqs =
      s.num_empty_block_reqs + 1 ∧
    (runStep stopIdle s ⟨FetchOutcome.err, true, false⟩).handlerBatch = [] := by
  simp only [runStep]
  simp [hcap]

/-- Witness for the amended C6 at the state (cursor `"5"`, 0, 0) with the
idle-stop policy off. -/
theorem c6_transport_failure_witness :
    (runStep false ⟨some "5", 0, 0⟩ ⟨FetchOutcome.err, true, false⟩).exit = false ∧
    (runStep false ⟨some "5", 0, 0⟩ ⟨FetchOutcome.err, true, false⟩).state.next_cursor =
      some "5" ∧
    (runStep false ⟨some "5", 0, 0⟩ ⟨FetchOutcome.err, true, false⟩).sleeps =
      [DELAY_FOR_EMPTY_PAGE] ∧
    (runStep false ⟨some "5", 0, 0⟩
      ⟨FetchOutcome.err, true, false⟩).state.num_empty_block_reqs = 1 ∧
    (runStep false ⟨some "5", 0, 0⟩ ⟨FetchOutcome.err, true, false⟩).handlerBatch = [] :=
  c6_transport_failure_behavior false ⟨some "5", 0, 0⟩ (by decide)

theorem runStep_failure_state (stopIdle : Bool) (s : SchedState) (fetch : FetchOutcome)
    (kill : Bool) :
    (runStep stopIdle s ⟨fetch, false, kill⟩).state =
      { s with retry_count := s.retry_count + 1 } := by
  by_cases h : s.retry_count + 1 < INDEX_FAILED_CALLS <;>
    cases fetch <;> simp [runStep, h]

theorem runStep_failure_exit (stopIdle : Bool) (s : SchedState) (fetch : FetchOutcome)
    (kill : Bool) :
    (runStep stopIdle s ⟨fetch, false, kill⟩).exit =
      !decide (s.retry_count + 1 < INDEX_FAILED_CALLS) := by
  by_cases h : s.retry_count + 1 < INDEX_FAILED_CALLS <;>
    cases fetch <;> simp [runStep, h]

/-- Consecutive `handle_events` failures drive `retry_count` up to
`INDEX_FAILED_CALLS`, at which point the loop exits. -/
theorem runSteps_consecutive_failures (stopIdle : Bool) (fetch : FetchOutcome)
    (kill : Bool) :
    ∀ (n : Nat) (s : SchedState),
      1 ≤ n → s.retry_count + n = INDEX_FAILED_CALLS →
      (runSteps stopIdle s (List.replicate n ⟨fetch, false, kill⟩)).2 = true := by
  intro n
  induction n with
  | zero => intro s h1 _; omega
  | succ n ih =>
    intro s _h1 hsum
    rw [List.replicate_succ]
    simp only [runSteps]
    by_cases hlt : s.retry_count + 1 < INDEX_FAILED_CALLS
    · have hex : (runStep stopIdle s ⟨fetch, false, kill⟩).exit = false := by
        rw [runStep_failure_exit]
        simp [hlt]
      rw [hex]
      simp only [Bool.false_eq_true, if_false]
      apply ih
      · simp [INDEX_FAILED_CALLS] at hsum hlt ⊢
        omega
      · rw [runStep_failure_state]
        simp at hsum ⊢
        omega
    · have hex : (runStep stopIdle s ⟨fetch, false, kill⟩).exit = true := by
        rw [runStep_failure_exit]
        simp [hlt]
      rw [hex]
      simp

theorem runStep_empty_page_state (stopIdle : Bool) (s : SchedState) (blocks : List Nat) :
    (runStep stopIdle s ⟨FetchOutcome.ok none blocks, true, false⟩).state.num_empty_block_reqs =
      s.num_empty_block_reqs + 1 := by
  by_cases h : s.num_empty_block_reqs + 1 =
      (if stopIdle then MAX_EMPTY_BLOCK_REQUESTS else USIZE_MAX) <;>
    simp [runStep, h]

theorem runStep_empty_page_exit_idle (s : SchedState) (blocks : List Nat) :
    (runStep true s ⟨FetchOutcome.ok none blocks, true, false⟩).exit =
      decide (s.num_empty_block_reqs + 1 = MAX_EMPTY_BLOCK_REQUESTS) := by
  by_cases h : s.num_empty_block_reqs + 1 = MAX_EMPTY_BLOCK_REQUESTS <;>
    simp [runStep, h]

/-- Under the idle-stop policy, consecutive empty pages drive
`num_empty_block_reqs` up to `MAX_EMPTY_BLOCK_REQUESTS`, at which point the
loop exits. -/
theorem runSteps_consecutive_empty_pages (blocks : List Nat) :
    ∀ (n : Nat) (s : SchedState),
      1 ≤ n → s.num_empty_block_reqs + n = MAX_EMPTY_BLOCK_REQUESTS →
      (runSteps true s
        (List.replicate n ⟨FetchOutcome.ok none blocks, true, false⟩)).2 = true := by
  intro n
  induction n with
  | zero => intro s h1 _; omega
  | succ n ih =>
    intro s _h1 hsum
    rw [List.replicate_succ]
    simp only [runSteps]
    by_cases hmax : s.num_empty_block_reqs + 1 = MAX_EMPTY_BLOCK_REQUESTS
    · have hex : (runStep true s ⟨FetchOutcome.ok none blocks, true, false⟩).exit = true := by
        rw [runStep_empty_page_exit_idle]
        simp [hmax]
      rw [hex]
      simp
    · have hex : (runStep true s ⟨FetchOutcome.ok none blocks, true, false⟩).exit = false := by
        rw [runStep_empty_page_exit_idle]
        simp [hmax]
      rw [hex]
      simp only [Bool.false_eq_true, if_false]
      apply ih
      · simp [MAX_EMPTY_BLOCK_REQUESTS] at hsum hmax ⊢
        omega
      · rw [runStep_empty_page_state]
        omega

/-- C7: the loop exits after `INDEX_FAILED_CALLS` consecutive
`handle_events` failures (whatever the fetch results and kill flag); under
the idle-stop policy it exits after `MAX_EMPTY_BLOCK_REQUESTS` consecutive
empty pages; with the policy off the cap is `usize::MAX`, so an empty page
below that (astronomically large) count never exits. -/
theorem c7_loop_termination :
    (∀ (stopIdle : Bool) (s : SchedState) (fetch : FetchOutcome) (kill : Bool),
      s.retry_count = 0 →
      (runSteps stopIdle s
        (List.replicate INDEX_FAILED_CALLS ⟨fetch, false, kill⟩)).2 = true) ∧
    (∀ (s : SchedState) (blocks : List Nat),
      s.num_empty_block_reqs = 0 →
      (runSteps true s
        (List.replicate MAX_EMPTY_BLOCK_REQUESTS
          ⟨FetchOutcome.ok none blocks, true, false⟩)).2 = true) ∧
    (∀ (s : SchedState) (blocks : List Nat),
      s.num_empty_block_reqs + 1 ≠ USIZE_MAX →
      (runStep false s ⟨FetchOutcome.ok none blocks, true, false⟩).exit = false) := by
  refine ⟨?_, ?_, ?_⟩
  · intro stopIdle s fetch kill h0
    apply runSteps_consecutive_failures
    · simp [INDEX_FAILED_CALLS]
    · omega
  · intro s blocks h0
    apply runSteps_consecutive_empty_pages
    · simp [MAX_EMPTY_BLOCK_REQUESTS]
    · omega
  · intro s blocks hcap
    simp only [runStep]
    simp [hcap]

/-- Witness for C7: ten consecutive failures exit; ten consecutive empty
pages exit under the idle-stop policy; one empty page does not exit with
the policy off. -/
theorem c7_loop_termination_witness :
    (runSteps false ⟨none, 0, 0⟩
      (List.replicate INDEX_FAILED_CALLS ⟨FetchOutcome.err, false, false⟩)).2 = true ∧
    (runSteps true ⟨none, 0, 0⟩
      (List.replicate MAX_EMPTY_BLOCK_REQUESTS
        ⟨FetchOutcome.ok none [], true, false⟩)).2 = true ∧
    (runStep false ⟨none, 0, 0⟩ ⟨FetchOutcome.ok none [], true, false⟩).exit = false :=
  ⟨c7_loop_termination.1 false ⟨none, 0, 0⟩ FetchOutcome.err false rfl,
   c7_loop_termination.2.1 ⟨none, 0, 0⟩ [] rfl,
   c7_loop_termination.2.2 ⟨none, 0, 0⟩ [] (by decide)⟩

/-- C10: the two termination counters only count consecutive events —
whenever `handle_events` succeeds and the fetch produced a cursor,
`num_empty_block_reqs` is reset to 0, and whenever the iteration runs to
the end of the loop body (`handle_events` succeeded and the loop did not
exit), `retry_count` is reset to 0. -/
theorem c10_counters_consecutive (stopIdle : Bool) (s : SchedState) (i : StepInput)
    (hok : i.handlerOk = true) :
    (∀ (c : String) (blocks : List Nat), i.fetch = FetchOutcome.ok (some c) blocks →
      (runStep stopIdle s i).state.num_empty_block_reqs = 0) ∧
    ((runStep stopIdle s i).exit = false →
      (runStep stopIdle s i).state.retry_count = 0) := by
  obtain ⟨fetch, hOk, kill⟩ := i
  simp only at hok
  subst hok
  constructor
  · intro c blocks hfetch
    simp only at hfetch
    subst hfetch
    by_cases hk : kill = true <;> simp [runStep, hk]
  · intro hexit
    cases fetch with
    | err =>
      by_cases hmax : s.num_empty_block_reqs + 1 =
          (if stopIdle then MAX_EMPTY_BLOCK_REQUESTS else USIZE_MAX)
      · simp [runStep, hmax] at hexit
      · by_cases hk : kill = true
        · simp [runStep, hmax, hk] at hexit
        · simp [runStep, hmax, hk]
    | ok cursor blocks =>
      cases cursor with
      | none =>
        by_cases hmax : s.num_empty_block_reqs + 1 =
            (if stopIdle then MAX_EMPTY_BLOCK_REQUESTS else USIZE_MAX)
        · simp [runStep, hmax] at hexit
        · by_cases hk : kill = true
          · simp [runStep, hmax, hk] at hexit
          · simp [runStep, hmax, hk]
      | some c =>
        by_cases hk : kill = true
        · simp [runStep, hk] at hexit
        · simp [runStep, hk]

/-- Witness for C10 at a successful iteration with cursor `"7"`. -/
theorem c10_counters_witness :
    (runStep false ⟨none, 3, 4⟩
      ⟨FetchOutcome.ok (some "7") [], true, false⟩).state.num_empty_block_reqs = 0 ∧
    (runStep false ⟨none, 3, 4⟩
      ⟨FetchOutcome.ok (some "7") [], true, false⟩).state.retry_count = 0 :=
  ⟨(c10_counters_consecutive false ⟨none, 3, 4⟩
      ⟨FetchOutcome.ok (some "7") [], true, false⟩ rfl).1 "7" [] rfl,
   (c10_counters_consecutive false ⟨none, 3, 4⟩
      ⟨FetchOutcome.ok (some "7") [], true, false⟩ rfl).2 (by decide)⟩

end Indexer
